import Mathlib

/-!
Verification development for the `fix-whitespace` tool (`src/main.rs`).

Lines are modelled as `List Char`; Rust `usize` arithmetic is modelled as
`Nat` with explicit reduction mod `2 ^ 64` at the one place where the
source can underflow (release-mode wrapping semantics).
-/

/-- Modulus of Rust `usize` arithmetic on a 64-bit target. -/
def USIZE_MOD : Nat := 2 ^ 64

/-- `Config` from `src/main.rs` (lines 23-27). -/
structure Config where
  expand_tabs : Bool
  tab_size : Nat
  line_length : Nat
deriving DecidableEq

/-- `DEFAULT_CONFIG` from `src/main.rs` (lines 29-34). -/
def DEFAULT_CONFIG : Config :=
  { expand_tabs := false, tab_size := 4, line_length := 80 }

/-- `CheckResult` from `src/main.rs` (lines 36-39). -/
structure CheckResult where
  fixable_errors : Nat
  unfixable_errors : Nat
deriving DecidableEq

/-- The `AddAssign` impl for `CheckResult` (lines 41-56), as pointwise addition. -/
def CheckResult.add (a b : CheckResult) : CheckResult :=
  { fixable_errors := a.fixable_errors + b.fixable_errors,
    unfixable_errors := a.unfixable_errors + b.unfixable_errors }

/-- Rust `char::is_whitespace`: the Unicode `White_Space` property,
enumerated codepoint by codepoint. -/
def is_whitespace (c : Char) : Bool :=
  c.val == 0x09 || c.val == 0x0A || c.val == 0x0B || c.val == 0x0C ||
  c.val == 0x0D || c.val == 0x20 || c.val == 0x85 || c.val == 0xA0 ||
  c.val == 0x1680 || (0x2000 ≤ c.val && c.val ≤ 0x200A) ||
  c.val == 0x2028 || c.val == 0x2029 || c.val == 0x202F || c.val == 0x205F ||
  c.val == 0x3000

/-- `line.contains('\t')` (line 170). -/
def contains_tab (l : List Char) : Bool :=
  l.any (fun ch => ch == '\t')

/-- `line.chars().skip_while(|c| *c == '\t').any(|c| c == '\t')` (lines 178-184):
a tab occurs after the leading run of tabs. -/
def tabs_after_tabs (l : List Char) : Bool :=
  (l.dropWhile (fun ch => ch == '\t')).any (fun ch => ch == '\t')

/-- `line.matches('\t').count()` (line 246). -/
def count_tabs (l : List Char) : Nat :=
  l.countP (fun ch => ch == '\t')

/-- `line.ends_with('\r')` (lines 190, 337). -/
def ends_with_cr (l : List Char) : Bool :=
  match l.reverse with
  | c :: _ => c == '\r'
  | [] => false

/-- `line.ends_with("\r\n")` (lines 194, 361). -/
def ends_with_crlf (l : List Char) : Bool :=
  match l.reverse with
  | a :: b :: _ => a == '\n' && b == '\r'
  | _ => false

/-- The trailing-whitespace detection of `check_line` (lines 198-242):
branches on `line.len() > 1` and `line.len() > 2`, inspecting the last
three characters exactly as the source does. -/
def trailing_ws_check (l : List Char) : Bool :=
  match l.reverse with
  | a :: b :: rest =>
    match rest with
    | c :: _ =>
      (a == '\n' && b == '\r' && is_whitespace c) ||
      (a == '\n' && is_whitespace b) ||
      (a == '\r' && is_whitespace b)
    | [] =>
      (a == '\n' && is_whitespace b) ||
      (a == '\r' && is_whitespace b)
  | _ => false

/-- `line.len() + line.matches('\t').count() * (config.tab_size - 1) - 1`
(lines 244-247, also 501-504), with Rust release-mode wrapping subtraction:
both `tab_size - 1` and the final `- 1` are `usize` subtractions, modelled
as adding `USIZE_MOD - 1` and reducing mod `USIZE_MOD`. -/
def line_len_calc (c : Config) (l : List Char) : Nat :=
  (l.length + count_tabs l * (c.tab_size + (USIZE_MOD - 1)) + (USIZE_MOD - 1))
    % USIZE_MOD

/-- `check_line` from `src/main.rs` (lines 159-255). -/
def check_line (c : Config) (line : List Char) : CheckResult :=
  { fixable_errors :=
      (if c.expand_tabs && contains_tab line then 1 else 0)
      + (if ends_with_cr line then 1 else 0)
      + (if ends_with_crlf line then 1 else 0)
      + (if trailing_ws_check line then 1 else 0),
    unfixable_errors :=
      (if !c.expand_tabs && tabs_after_tabs line then 1 else 0)
      + (if line_len_calc c line > c.line_length then 1 else 0) }

/-- Helper for `splitLines`: accumulates the current (reversed) partial line;
a `'\n'` closes a line (kept, as `read_line` keeps terminators). -/
def splitLinesAux : List Char → List Char → List (List Char)
  | [], acc => if acc = [] then [] else [acc.reverse]
  | c :: cs, acc =>
    if c == '\n' then (acc.reverse ++ ['\n']) :: splitLinesAux cs []
    else splitLinesAux cs (c :: acc)

/-- The segmentation performed by the `read_line` loops of `check_file` and
`fix_file` (lines 275-304, 544-591): lines end at `'\n'` (inclusive), with a
final terminator-less fragment at end of file. -/
def splitLines (t : List Char) : List (List Char) :=
  splitLinesAux t []

/-- `check_file` from `src/main.rs` (lines 257-306): sums `check_line` over
the `read_line` segmentation. -/
def check_file (c : Config) (t : List Char) : CheckResult :=
  (splitLines t).foldl
    (fun acc l => acc.add (check_line c l))
    { fixable_errors := 0, unfixable_errors := 0 }

/-- Rust `str::parse::<usize>`: optional leading `'+'`, then one or more
ASCII digits; overflow past `usize::MAX` is an error. -/
def parse_usize (s : List Char) : Option Nat :=
  let digits := match s with
    | c :: rest => if c == '+' then rest else c :: rest
    | [] => []
  if digits = [] then none
  else if digits.all (fun c => c.isDigit) then
    let n := digits.foldl (fun acc c => acc * 10 + (c.toNat - 48)) 0
    if n < USIZE_MOD then some n else none
  else none

/-- Rust `str::split(' ')`: split on every single space, keeping empty
pieces. -/
def splitSpace : List Char → List (List Char)
  | [] => [[]]
  | c :: cs =>
    match splitSpace cs with
    | [] => [[]]
    | r :: rs => if c == ' ' then [] :: r :: rs else (c :: r) :: rs

/-- One iteration of the `config_from_modeline` loop (lines 124-153).
Note the source's `ts=` branch parses `modeline[3..]` — a slice of the whole
modeline — not `modeline_part[3..]`. -/
def modeline_step (modeline : List Char) (config : Config) (part : List Char) :
    Config :=
  let config :=
    if part = "et".toList then { config with expand_tabs := true } else config
  let config :=
    if part = "noet".toList then { config with expand_tabs := false } else config
  let config :=
    if part.take 3 = "ts=".toList then
      match parse_usize (modeline.drop 3) with
      | some tab_size => { config with tab_size := tab_size }
      | none => config
    else config
  config

/-- `config_from_modeline` from `src/main.rs` (lines 117-157). -/
def config_from_modeline (modeline : List Char) : Config :=
  (splitSpace modeline).foldl (modeline_step modeline) DEFAULT_CONFIG

/-- The borrow-or-allocate result of `fix_line` (`Cow<str>`). -/
inductive Cowstr where
  | borrowed : List Char → Cowstr
  | owned : List Char → Cowstr
deriving DecidableEq

/-- The payload of a `Cow<str>`. -/
def Cowstr.val : Cowstr → List Char
  | borrowed l => l
  | owned l => l

/-- Result of `fix_line`: the returned line, the `fixes_applied` tags, and
the diagnostic printed to stdout (if any). -/
structure FixResult where
  out : Cowstr
  tags : List String
  diag : Option String
deriving DecidableEq

/-- The mac line-ending step of `fix_line` (lines 337-359): if the line ends
with `'\r'`, drop the last character and append `'\n'`. -/
def step_mac (l : List Char) : List Char :=
  if ends_with_cr l then l.dropLast ++ ['\n'] else l

/-- The windows line-ending step of `fix_line` (lines 361-384): if the
(possibly already modified) line ends with `"\r\n"`, drop the last two
characters and append `'\n'`. -/
def step_win (l : List Char) : List Char :=
  if ends_with_crlf l then l.dropLast.dropLast ++ ['\n'] else l

/-- `modified_line.replace("\t", &tab_as_spaces)` (lines 390-399): each tab
becomes `tab_size` spaces. -/
def expandTabs (ts : Nat) : List Char → List Char
  | [] => []
  | ch :: rest =>
    (if ch == '\t' then List.replicate ts ' ' else [ch]) ++ expandTabs ts rest

/-- The tab-expansion step of `fix_line` (lines 388-404). -/
def step_tabs (c : Config) (l : List Char) : List Char :=
  if c.expand_tabs && contains_tab l then expandTabs c.tab_size l else l

/-- The trailing-whitespace trigger of `fix_line` (lines 429-442):
`modified_line.len() > 1` and the second-to-last character is whitespace
(the last character is skipped unconditionally, terminator or not). -/
def ws_before_end (l : List Char) : Bool :=
  match l.reverse with
  | _ :: b :: _ => is_whitespace b
  | _ => false

/-- The trailing-whitespace strip of `fix_line` (lines 447-493): skip the
last character, strip whitespace from the end, re-append a single `'\n'`
(the all-whitespace case collapses to `"\n"`). -/
def step_trail (l : List Char) : List Char :=
  if ws_before_end l then
    (l.dropLast.reverse.dropWhile is_whitespace).reverse ++ ['\n']
  else l

/-- The fully fixed line: the four corrections of `fix_line` in source
order (mac ending, windows ending, tab expansion, trailing whitespace). -/
def fix_body (c : Config) (l : List Char) : List Char :=
  step_trail (step_tabs c (step_win (step_mac l)))

/-- The `fixes_applied` tag list of `fix_line`, each condition evaluated on
the intermediate string the source evaluates it on. -/
def fix_tags (c : Config) (l : List Char) : List String :=
  (if ends_with_cr l then ["fixed mac line ending"] else [])
  ++ (if ends_with_crlf (step_mac l) then ["fixed windows line ending"] else [])
  ++ (if c.expand_tabs && contains_tab (step_win (step_mac l)) then
        ["expanded tabs"] else [])
  ++ (if !c.expand_tabs && tabs_after_tabs (step_tabs c (step_win (step_mac l)))
      then ["tabs after other characters"] else [])
  ++ (if ws_before_end (step_tabs c (step_win (step_mac l))) then
        ["removed whitespace from end"] else [])
  ++ (if line_len_calc c (fix_body c l) > c.line_length then
        ["line too long"] else [])

/-- Whether `modified_line` became `Cow::Owned`: true iff one of the four
rewriting steps fired. -/
def fix_modified (c : Config) (l : List Char) : Bool :=
  ends_with_cr l
  || ends_with_crlf (step_mac l)
  || (c.expand_tabs && contains_tab (step_win (step_mac l)))
  || ws_before_end (step_tabs c (step_win (step_mac l)))

/-- `fix_line` from `src/main.rs` (lines 308-525). -/
def fix_line (c : Config) (filename : String) (line_number : Nat)
    (line : List Char) : FixResult :=
  if (check_line c line).fixable_errors = 0 ∧
      (check_line c line).unfixable_errors = 0 then
    { out := Cowstr.borrowed line, tags := [], diag := none }
  else
    { out :=
        if fix_modified c line then Cowstr.owned (fix_body c line)
        else Cowstr.borrowed line,
      tags := fix_tags c line,
      diag := some (filename ++ ":" ++ toString (line_number + 1) ++ ": "
        ++ String.intercalate ", " (fix_tags c line)) }

/-- `BufRead::lines()` post-processing: strip a trailing `'\n'`, and a
`'\r'` before it (only as part of a `"\r\n"`). -/
def chomp_line (l : List Char) : List Char :=
  if l.getLast? == some '\n' then
    let l1 := l.dropLast
    if l1.getLast? == some '\r' then l1.dropLast else l1
  else l

/-- The line sequence seen by `find_modeline`'s `buf_reader.lines()` loop
(lines 84-111). -/
def lines_of (t : List Char) : List (List Char) :=
  (splitLines t).map chomp_line

/-- Try one alternative of the regex `" (vim|vi|ex): (.+)"` after the space:
the token, then `": "`, then a non-empty captured remainder (`.+` is greedy,
so the capture is the whole rest of the line). -/
def modeline_try_tok (tok : List Char) (rest : List Char) :
    Option (List Char) :=
  if rest.take (tok.length + 2) = tok ++ [':', ' '] then
    let captured := rest.drop (tok.length + 2)
    if captured = [] then none else some captured
  else none

/-- Try the regex at one position: a space, then the alternation
`vim|vi|ex` in preference order. -/
def modeline_try_at (l : List Char) : Option (List Char) :=
  match l with
  | c :: rest =>
    if c == ' ' then
      (modeline_try_tok ("vim".toList) rest).orElse fun _ =>
        (modeline_try_tok ("vi".toList) rest).orElse fun _ =>
          modeline_try_tok ("ex".toList) rest
    else none
  | [] => none

/-- `modeline_regex.captures(&line)` followed by `captures.at(2)` (lines
98-109): the capture of the leftmost match of `" (vim|vi|ex): (.+)"`. -/
def modeline_capture : List Char → Option (List Char)
  | [] => none
  | c :: cs => (modeline_try_at (c :: cs)).orElse fun _ => modeline_capture cs

/-- `find_modeline` from `src/main.rs` (lines 58-115): scan every line,
keeping the capture of the last matching line. -/
def find_modeline (t : List Char) : Option (List Char) :=
  (lines_of t).foldl
    (fun acc line =>
      match modeline_capture line with
      | some s => some s
      | none => acc)
    none

/-- Modelled from the spec: the clamped visible length of §4.3 rule 6 —
raw character count plus `tab_size - 1` per tab, minus 1, with both
subtractions clamped at zero (`Nat` subtraction) instead of wrapping. -/
def visible_length_spec (c : Config) (l : List Char) : Nat :=
  l.length + count_tabs l * (c.tab_size - 1) - 1

/-- Modelled from the spec: §4.2's `ts=<N>` handling, which parses the
token's own suffix `N` (not a slice of the whole modeline as the source
does). -/
def modeline_step_spec (config : Config) (part : List Char) : Config :=
  let config :=
    if part = "et".toList then { config with expand_tabs := true } else config
  let config :=
    if part = "noet".toList then { config with expand_tabs := false } else config
  let config :=
    if part.take 3 = "ts=".toList then
      match parse_usize (part.drop 3) with
      | some tab_size => { config with tab_size := tab_size }
      | none => config
    else config
  config

/-- Modelled from the spec: `config_from_modeline` as §4.2 words it, each
`ts=` token parsing its own suffix. -/
def config_from_modeline_spec (modeline : List Char) : Config :=
  (splitSpace modeline).foldl modeline_step_spec DEFAULT_CONFIG

/-- Modelled from the spec: the claim's reading of the modeline pattern —
a space, one of `vim`/`vi`/`ex`, then a colon, then the remainder of the
line as the captured free text (no space required after the colon). -/
def modeline_try_tok_spec (tok : List Char) (rest : List Char) :
    Option (List Char) :=
  if rest.take (tok.length + 1) = tok ++ [':'] then
    some (rest.drop (tok.length + 1))
  else none

/-- Modelled from the spec: scan for the claim's pattern at each position. -/
def modeline_try_at_spec (l : List Char) : Option (List Char) :=
  match l with
  | c :: rest =>
    if c == ' ' then
      (modeline_try_tok_spec ("vim".toList) rest).orElse fun _ =>
        (modeline_try_tok_spec ("vi".toList) rest).orElse fun _ =>
          modeline_try_tok_spec ("ex".toList) rest
    else none
  | [] => none

/-- Modelled from the spec: leftmost occurrence of the claim's pattern. -/
def modeline_capture_spec : List Char → Option (List Char)
  | [] => none
  | c :: cs =>
    (modeline_try_at_spec (c :: cs)).orElse fun _ => modeline_capture_spec cs

/-- Claim C1: refuted by evaluation — for the override string `"et ts=8"`
the source parses `modeline[3..]` (here `"ts=8"`, which is not a number)
instead of the token's suffix `"8"`, so `tab_size` silently stays 4; the
spec-modelled resolver yields 8 as the claim states. -/
theorem c1_modeline_ts_bug :
    (config_from_modeline ("et ts=8".toList)).tab_size = 4 ∧
    (config_from_modeline_spec ("et ts=8".toList)).tab_size = 8 := by
  decide

/-- Claim C2: refuted by evaluation — on `"foo\r\n"` `check_line` counts
two fixable violations, not one: the `ends_with("\r\n")` rule fires, and
the trailing-whitespace check also fires because the `'\r'` of the
terminator satisfies `is_whitespace` in the disjunct
`last == '\n' && second_last.is_whitespace()`. -/
theorem c2_crlf_double_count :
    check_line DEFAULT_CONFIG ("foo\r\n".toList) =
      { fixable_errors := 2, unfixable_errors := 0 } := by
  decide

/-- Claim C3: refuted by evaluation — on the terminator-less end-of-file
fragment of 85 `'a'`s followed by `" x"` (over-length, so the fast path is
skipped), the trailing-whitespace step of `fix_line` treats the final
non-whitespace `'x'` as a terminator, deletes it, strips the space, and
appends a `'\n'` that was not in the input. -/
theorem c3_eof_fragment_data_loss :
    (fix_line DEFAULT_CONFIG "f" 0
        (List.replicate 85 'a' ++ [' ', 'x'])).out.val =
      List.replicate 85 'a' ++ ['\n'] := by
  decide

/-- Claim C5: refuted by evaluation — on `"x\r\r"` the two sequential
terminator strips both fire: the mac fix rewrites it to `"x\r\n"`, which
the windows fix then also rewrites, so both tags are emitted for one
line. -/
theorem c5_double_ending_fix :
    (fix_line DEFAULT_CONFIG "f" 0 ("x\r\r".toList)).tags =
      ["fixed mac line ending", "fixed windows line ending"] ∧
    (fix_line DEFAULT_CONFIG "f" 0 ("x\r\r".toList)).out.val =
      "x\n".toList := by
  decide

/-- Claim C6 counterexample: the scanner segments only at `'\n'`
(`read_line`), so in `"one\rtwo\n"` the lone `'\r'` does not end a line and
`check_file` counts no violation at all, contradicting the claimed fixable
legacy-Mac violation. -/
theorem c6_lone_cr_counterexample :
    check_file DEFAULT_CONFIG ("one\rtwo\n".toList) =
      { fixable_errors := 0, unfixable_errors := 0 } := by
  decide

/-- Claim C7 counterexample: on the empty line the `- 1` is not clamped —
it wraps, making the computed length `2 ^ 64 - 1 > 80`, so an unfixable
violation is counted although the clamped visible length of the spec is 0. -/
theorem c7_empty_line_counterexample :
    (check_line DEFAULT_CONFIG []).unfixable_errors = 1 ∧
    visible_length_spec DEFAULT_CONFIG [] = 0 := by
  decide

/-- Claim C9 counterexample: the override string `"ts=0"` parses as 0 and
is stored without validation, so the constructed `Config` violates the
claimed `tab_size ≥ 1` invariant. -/
theorem c9_ts_zero_counterexample :
    (config_from_modeline ("ts=0".toList)).tab_size = 0 := by
  decide

/-- Claim C10 counterexample: the regex requires `": "` (a colon followed by
a space) and a non-empty remainder, so the line `" vi:x"` — which matches
the claim's pattern of a colon directly followed by the remainder, with
capture `"x"` — produces no modeline at all. -/
theorem c10_colon_space_counterexample :
    find_modeline (" vi:x\n".toList) = none ∧
    modeline_capture_spec (" vi:x".toList) = some ['x'] := by
  decide

/-- Claim C4: if `check_line` reports zero fixable and zero unfixable
violations, `fix_line` takes the fast path and returns the line borrowed
(byte-for-byte unchanged, no allocation), with no tags and no diagnostic. -/
theorem c4_zero_violations_borrowed (c : Config) (fn : String) (n : Nat)
    (l : List Char)
    (h : check_line c l = { fixable_errors := 0, unfixable_errors := 0 }) :
    fix_line c fn n l = { out := Cowstr.borrowed l, tags := [], diag := none } := by
  unfold fix_line
  rw [h]
  simp

/-- Witness for C4 at the violation-free line `"hi\n"`. -/
theorem c4_zero_violations_borrowed_witness :
    check_line DEFAULT_CONFIG ("hi\n".toList) =
      { fixable_errors := 0, unfixable_errors := 0 } ∧
    fix_line DEFAULT_CONFIG "f" 0 ("hi\n".toList) =
      { out := Cowstr.borrowed ("hi\n".toList), tags := [], diag := none } :=
  ⟨by decide, c4_zero_violations_borrowed DEFAULT_CONFIG "f" 0 ("hi\n".toList)
    (by decide)⟩

lemma modeline_step_inv (m : List Char) (c : Config) (p : List Char)
    (h1 : c.tab_size = 4 ∨ parse_usize (m.drop 3) = some c.tab_size)
    (h2 : c.line_length = 80) :
    ((modeline_step m c p).tab_size = 4 ∨
      parse_usize (m.drop 3) = some (modeline_step m c p).tab_size) ∧
    (modeline_step m c p).line_length = 80 := by
  unfold modeline_step
  cases hp : parse_usize (m.drop 3) with
  | none => split_ifs <;> simp_all
  | some n => split_ifs <;> simp_all

lemma modeline_foldl_inv (m : List Char) :
    ∀ (parts : List (List Char)) (c : Config),
    (c.tab_size = 4 ∨ parse_usize (m.drop 3) = some c.tab_size) →
    c.line_length = 80 →
    (((parts.foldl (modeline_step m) c).tab_size = 4 ∨
      parse_usize (m.drop 3) =
        some (parts.foldl (modeline_step m) c).tab_size) ∧
    (parts.foldl (modeline_step m) c).line_length = 80) := by
  intro parts
  induction parts with
  | nil => intro c h1 h2; exact ⟨h1, h2⟩
  | cons p ps ih =>
    intro c h1 h2
    rw [List.foldl_cons]
    obtain ⟨g1, g2⟩ := modeline_step_inv m c p h1 h2
    exact ih _ g1 g2

/-- Claim C9 as amended: every constructed `Config` has positive
`line_length`, and positive `tab_size` except when the modeline's suffix
from index 3 parses as the unsigned integer 0 — the only way the loop ever
writes `tab_size` is with the parse of `modeline[3..]`. -/
theorem c9_amended_config_invariant :
    ∀ m : List Char,
      1 ≤ (config_from_modeline m).line_length ∧
      (1 ≤ (config_from_modeline m).tab_size ∨
        parse_usize (m.drop 3) = some 0) := by
  intro m
  obtain ⟨h1, h2⟩ :=
    modeline_foldl_inv m (splitSpace m) DEFAULT_CONFIG (Or.inl rfl) rfl
  unfold config_from_modeline
  refine ⟨by rw [h2]; decide, ?_⟩
  rcases h1 with h | h
  · exact Or.inl (by rw [h]; decide)
  · rcases Nat.eq_zero_or_pos
      ((List.foldl (modeline_step m) DEFAULT_CONFIG (splitSpace m)).tab_size)
      with hz | hpos
    · exact Or.inr (by rw [← hz]; exact h)
    · exact Or.inl hpos

lemma foldl_last_capture :
    ∀ (ls : List (List Char)) (acc : Option (List Char)),
    ls.foldl
      (fun acc line =>
        match modeline_capture line with
        | some s => some s
        | none => acc)
      acc
      = match (ls.filterMap modeline_capture).getLast? with
        | some x => some x
        | none => acc := by
  intro ls
  induction ls with
  | nil => intro acc; rfl
  | cons l rest ih =>
    intro acc
    rw [List.foldl_cons, ih]
    cases hc : modeline_capture l with
    | none =>
      rw [List.filterMap_cons_none hc]
    | some v =>
      rw [List.filterMap_cons_some hc]
      cases hL : (rest.filterMap modeline_capture).getLast? with
      | none =>
        have hnil : rest.filterMap modeline_capture = [] :=
          List.getLast?_eq_none_iff.mp hL
        rw [hnil]
        rfl
      | some x =>
        have hne : rest.filterMap modeline_capture ≠ [] := by
          intro hnil; rw [hnil] at hL; exact Option.noConfusion hL
        obtain ⟨y, ys, hys⟩ := List.exists_cons_of_ne_nil hne
        rw [hys] at hL ⊢
        rw [List.getLast?_cons_cons, hL]

/-- Claim C10 as amended: `find_modeline` scans every line and returns the
capture of the last matching line (the fold keeping the most recent match
equals the last element of the per-line captures); non-matching lines
contribute nothing and cause no error. The pattern requires a colon
followed by a space and a non-empty captured remainder. -/
theorem c10_amended_last_match :
    (∀ t : List Char,
      find_modeline t = ((lines_of t).filterMap modeline_capture).getLast?) ∧
    modeline_capture (" vim: foo bar".toList) = some ("foo bar".toList) ∧
    find_modeline ("x\n vi: ts=2\ny\n ex: ts=8\n".toList) =
      some ("ts=8".toList) := by
  refine ⟨fun t => ?_, by decide, by decide⟩
  unfold find_modeline
  rw [foldl_last_capture]
  cases h : ((lines_of t).filterMap modeline_capture).getLast? <;> rfl

lemma splitLinesAux_flatten :
    ∀ (cs acc : List Char),
      (splitLinesAux cs acc).flatten = acc.reverse ++ cs := by
  intro cs
  induction cs with
  | nil =>
    intro acc
    unfold splitLinesAux
    split_ifs with h
    · rw [h]; rfl
    · simp
  | cons c cs ih =>
    intro acc
    unfold splitLinesAux
    split_ifs with h
    · have hc : c = '\n' := by
        have := h
        simpa using this
      subst hc
      simp [List.flatten_cons, ih []]
    · rw [ih (c :: acc)]
      simp

lemma splitLinesAux_dropLast_nl :
    ∀ (cs acc : List Char),
      ((splitLinesAux cs acc).dropLast).all
        (fun l => l.getLast? == some '\n') = true := by
  intro cs
  induction cs with
  | nil =>
    intro acc
    unfold splitLinesAux
    split_ifs <;> rfl
  | cons c cs ih =>
    intro acc
    unfold splitLinesAux
    split_ifs with h
    · cases hrest : splitLinesAux cs [] with
      | nil => rfl
      | cons r rs =>
        have ihr := ih []
        rw [hrest] at ihr
        rw [List.dropLast_cons₂, List.all_cons, ihr]
        simp [List.getLast?_concat]
    · exact ih (c :: acc)

lemma splitLinesAux_no_inner_nl :
    ∀ (cs acc : List Char),
      acc.all (fun ch => !(ch == '\n')) = true →
      (splitLinesAux cs acc).all
        (fun l => (l.dropLast).all (fun ch => !(ch == '\n'))) = true := by
  intro cs
  induction cs with
  | nil =>
    intro acc h
    unfold splitLinesAux
    split_ifs with hnil
    · rfl
    · rw [List.all_cons]
      have hrev : (acc.reverse.dropLast).all (fun ch => !(ch == '\n')) = true := by
        refine List.all_eq_true.mpr fun x hx => ?_
        have hx2 : x ∈ acc := List.mem_reverse.mp (List.dropLast_subset _ hx)
        exact List.all_eq_true.mp h x hx2
      rw [hrev]
      rfl
  | cons c cs ih =>
    intro acc h
    unfold splitLinesAux
    split_ifs with hc
    · rw [List.all_cons]
      have hseg : ((acc.reverse ++ ['\n']).dropLast).all
          (fun ch => !(ch == '\n')) = true := by
        rw [List.dropLast_concat]
        refine List.all_eq_true.mpr fun x hx => ?_
        exact List.all_eq_true.mp h x (List.mem_reverse.mp hx)
      rw [hseg, ih [] rfl]
      rfl
    · refine ih (c :: acc) ?_
      rw [List.all_cons, h]
      simp
      intro hcc
      rw [hcc] at hc
      simp at hc

/-- Claim C6 as amended: the `read_line` segmentation concatenates back to
the input, every segment but the last ends with `'\n'`, no segment contains
an interior `'\n'` — i.e. lines are cut exactly at `'\n'`, never at a lone
`'\r'`. Concretely, `"one\rtwo\n"` (interior `\r`) yields no violations,
while a file whose end-of-file fragment ends in `'\r'` yields the one
fixable legacy-Mac violation. -/
theorem c6_amended_newline_segmentation :
    (∀ t : List Char, (splitLines t).flatten = t) ∧
    (∀ t : List Char,
      ((splitLines t).dropLast).all (fun l => l.getLast? == some '\n') = true) ∧
    (∀ t : List Char,
      (splitLines t).all
        (fun l => (l.dropLast).all (fun ch => !(ch == '\n'))) = true) ∧
    check_file DEFAULT_CONFIG ("one\rtwo\n".toList) =
      { fixable_errors := 0, unfixable_errors := 0 } ∧
    check_file DEFAULT_CONFIG ("one\ntwo\r".toList) =
      { fixable_errors := 1, unfixable_errors := 0 } := by
  refine ⟨fun t => ?_, fun t => splitLinesAux_dropLast_nl t [],
    fun t => splitLinesAux_no_inner_nl t [] rfl, by decide, by decide⟩
  rw [splitLines, splitLinesAux_flatten]
  rfl

lemma line_len_calc_eq_clamped (c : Config) (l : List Char)
    (hts : 1 ≤ c.tab_size) (hne : l ≠ [])
    (hsz : l.length + count_tabs l * (c.tab_size - 1) < USIZE_MOD) :
    line_len_calc c l = l.length + count_tabs l * (c.tab_size - 1) - 1 := by
  have hx : 1 ≤ l.length := by
    cases l with
    | nil => exact absurd rfl hne
    | cons a as => simp
  unfold line_len_calc
  have e1 : c.tab_size + (USIZE_MOD - 1) = (c.tab_size - 1) + USIZE_MOD := by
    unfold USIZE_MOD at *
    omega
  rw [e1, Nat.mul_add]
  have e2 : l.length +
        (count_tabs l * (c.tab_size - 1) + count_tabs l * USIZE_MOD) +
        (USIZE_MOD - 1)
      = (l.length + count_tabs l * (c.tab_size - 1) + (USIZE_MOD - 1)) +
        count_tabs l * USIZE_MOD := by
    ring
  rw [e2, Nat.add_mul_mod_self_right]
  have e3 : l.length + count_tabs l * (c.tab_size - 1) + (USIZE_MOD - 1)
      = (l.length + count_tabs l * (c.tab_size - 1) - 1) + USIZE_MOD := by
    unfold USIZE_MOD at *
    omega
  rw [e3, Nat.add_mod_right]
  apply Nat.mod_eq_of_lt
  unfold USIZE_MOD at *
  omega

/-- Claim C7 as amended: for every non-empty line (within the usize range
every real string satisfies) the wrapping computation agrees with the
clamped visible length, so no underflow occurs, and rule 6 counts one
unfixable violation exactly when that visible length exceeds
`line_length`; totality on the empty line fails (see the counterexample). -/
theorem c7_amended_visible_length (c : Config) (l : List Char)
    (hts : 1 ≤ c.tab_size) (hne : l ≠ [])
    (hsz : l.length + count_tabs l * (c.tab_size - 1) < USIZE_MOD) :
    line_len_calc c l = l.length + count_tabs l * (c.tab_size - 1) - 1 ∧
    (check_line c l).unfixable_errors =
      (if !c.expand_tabs && tabs_after_tabs l then 1 else 0) +
      (if l.length + count_tabs l * (c.tab_size - 1) - 1 > c.line_length
        then 1 else 0) := by
  have h1 := line_len_calc_eq_clamped c l hts hne hsz
  refine ⟨h1, ?_⟩
  simp only [check_line]
  rw [h1]

/-- Witness for C7 (amended) at the line `"a"`. -/
theorem c7_amended_visible_length_witness :
    1 ≤ DEFAULT_CONFIG.tab_size ∧ (['a'] : List Char) ≠ [] ∧
    List.length ['a'] + count_tabs ['a'] * (DEFAULT_CONFIG.tab_size - 1)
      < USIZE_MOD ∧
    (line_len_calc DEFAULT_CONFIG ['a'] =
      List.length ['a'] + count_tabs ['a'] * (DEFAULT_CONFIG.tab_size - 1) - 1 ∧
    (check_line DEFAULT_CONFIG ['a']).unfixable_errors =
      (if !DEFAULT_CONFIG.expand_tabs && tabs_after_tabs ['a'] then 1 else 0) +
      (if List.length ['a'] + count_tabs ['a'] * (DEFAULT_CONFIG.tab_size - 1)
            - 1 > DEFAULT_CONFIG.line_length then 1 else 0)) :=
  ⟨by decide, by decide, by decide,
    c7_amended_visible_length DEFAULT_CONFIG ['a'] (by decide) (by decide)
      (by decide)⟩


lemma ends_with_cr_append (x y : List Char) (hy : y ≠ []) :
    ends_with_cr (x ++ y) = ends_with_cr y := by
  unfold ends_with_cr
  rw [List.reverse_append]
  cases hyr : y.reverse with
  | nil => exact absurd (List.reverse_eq_nil_iff.mp hyr) hy
  | cons c t => rfl

lemma ends_with_cr_concat_nl (x : List Char) :
    ends_with_cr (x ++ ['\n']) = false := by
  rw [ends_with_cr_append x ['\n'] (by simp)]
  decide

lemma ends_with_cr_replicate_space (n : Nat) :
    ends_with_cr (List.replicate n ' ') = false := by
  unfold ends_with_cr
  rw [List.reverse_replicate]
  cases n with
  | zero => rfl
  | succ k =>
    rw [List.replicate_succ]
    show (' ' == '\r') = false
    decide

lemma crlf_imp_wbe (l : List Char) :
    ends_with_crlf l = true → ws_before_end l = true := by
  unfold ends_with_crlf ws_before_end
  generalize l.reverse = r
  match r with
  | [] => simp
  | [a] => simp
  | a :: b :: t =>
    intro h
    simp at h
    show is_whitespace b = true
    rw [h.2]
    decide

lemma tws_imp_wbe (l : List Char) :
    trailing_ws_check l = true → ws_before_end l = true := by
  unfold trailing_ws_check ws_before_end
  generalize l.reverse = r
  match r with
  | [] => simp
  | [a] => simp
  | [a, b] =>
    intro h
    replace h : (a == '\n' && is_whitespace b ||
        a == '\r' && is_whitespace b) = true := h
    show is_whitespace b = true
    cases hb : is_whitespace b with
    | true => rfl
    | false =>
      rw [hb] at h
      simp at h
  | a :: b :: c :: t =>
    intro h
    replace h : (a == '\n' && b == '\r' && is_whitespace c ||
        a == '\n' && is_whitespace b ||
        a == '\r' && is_whitespace b) = true := h
    show is_whitespace b = true
    cases hb : is_whitespace b with
    | true => rfl
    | false =>
      rw [hb] at h
      simp [and_assoc] at h
      obtain ⟨h1, h2, h3⟩ := h
      rw [h2] at hb
      exact absurd hb (by decide)

lemma expandTabs_append (ts : Nat) (l1 l2 : List Char) :
    expandTabs ts (l1 ++ l2) = expandTabs ts l1 ++ expandTabs ts l2 := by
  induction l1 with
  | nil => rfl
  | cons c cs ih => simp [expandTabs, ih, List.append_assoc]

lemma expandTabs_not_cr (ts : Nat) (hts : 1 ≤ ts) (l : List Char)
    (h : ends_with_cr l = false) :
    ends_with_cr (expandTabs ts l) = false := by
  induction l using List.reverseRecOn with
  | nil => rfl
  | append_singleton xs a ih =>
    rw [expandTabs_append]
    by_cases ha : (a == '\t') = true
    · have he : expandTabs ts [a] = List.replicate ts ' ' := by
        simp [expandTabs, ha]
      rw [he, ends_with_cr_append _ _ ?hne]
      · exact ends_with_cr_replicate_space ts
      · have : ts ≠ 0 := by omega
        simp [this]
    · have he : expandTabs ts [a] = [a] := by
        simp [expandTabs, ha]
      rw [he, ends_with_cr_append _ _ (by simp)]
      rw [ends_with_cr_append _ _ (by simp)] at h
      exact h

lemma any_tab_replicate_space (n : Nat) :
    (List.replicate n ' ').any (fun ch => ch == '\t') = false := by
  induction n with
  | zero => rfl
  | succ k ih => rw [List.replicate_succ, List.any_cons, ih]; decide

lemma expandTabs_no_tab (ts : Nat) (l : List Char) :
    contains_tab (expandTabs ts l) = false := by
  unfold contains_tab
  induction l with
  | nil => rfl
  | cons c cs ih =>
    show (((if c == '\t' then List.replicate ts ' ' else [c]) ++
      expandTabs ts cs).any (fun ch => ch == '\t')) = false
    rw [List.any_append, ih]
    by_cases hc : (c == '\t') = true
    · rw [if_pos hc, any_tab_replicate_space]
      rfl
    · rw [if_neg hc]
      simp at hc
      simp [hc]

lemma bool_not_true {b : Bool} (h : ¬ b = true) : b = false := by
  cases b
  · rfl
  · exact absurd rfl h

lemma step_mac_not_cr (l : List Char) : ends_with_cr (step_mac l) = false := by
  unfold step_mac
  by_cases h : ends_with_cr l = true
  · rw [if_pos h]
    exact ends_with_cr_concat_nl _
  · rw [if_neg h]
    exact bool_not_true h

lemma step_win_not_cr (l : List Char) (h : ends_with_cr l = false) :
    ends_with_cr (step_win l) = false := by
  unfold step_win
  by_cases hw : ends_with_crlf l = true
  · rw [if_pos hw]
    exact ends_with_cr_concat_nl _
  · rw [if_neg hw]
    exact h

lemma step_tabs_not_cr (c : Config) (l : List Char) (hts : 1 ≤ c.tab_size)
    (h : ends_with_cr l = false) :
    ends_with_cr (step_tabs c l) = false := by
  unfold step_tabs
  by_cases he : (c.expand_tabs && contains_tab l) = true
  · rw [if_pos he]
    exact expandTabs_not_cr c.tab_size hts l h
  · rw [if_neg he]
    exact h

lemma step_trail_not_cr (l : List Char) (h : ends_with_cr l = false) :
    ends_with_cr (step_trail l) = false := by
  unfold step_trail
  by_cases hw : ws_before_end l = true
  · rw [if_pos hw]
    exact ends_with_cr_concat_nl _
  · rw [if_neg hw]
    exact h

lemma contains_tab_false_of_subset (l1 l2 : List Char) (hs : l1 ⊆ l2)
    (h : contains_tab l2 = false) : contains_tab l1 = false := by
  unfold contains_tab at *
  rw [List.any_eq_false] at *
  intro x hx
  exact h x (hs hx)

lemma step_tabs_no_tab (c : Config) (l : List Char)
    (het : c.expand_tabs = true) :
    contains_tab (step_tabs c l) = false := by
  unfold step_tabs
  by_cases hct : contains_tab l = true
  · rw [if_pos (by rw [het, hct]; rfl)]
    exact expandTabs_no_tab c.tab_size l
  · rw [if_neg (by rw [het]; simpa using bool_not_true hct)]
    exact bool_not_true hct

lemma step_trail_no_tab (l : List Char) (h : contains_tab l = false) :
    contains_tab (step_trail l) = false := by
  unfold step_trail
  by_cases hw : ws_before_end l = true
  · rw [if_pos hw]
    unfold contains_tab
    rw [List.any_append]
    have h1 : contains_tab
        ((l.dropLast.reverse.dropWhile is_whitespace).reverse) = false := by
      refine contains_tab_false_of_subset _ l (fun x hx => ?_) h
      rw [List.mem_reverse] at hx
      have hx2 := List.dropWhile_subset _ hx
      rw [List.mem_reverse] at hx2
      exact List.dropLast_subset _ hx2
    unfold contains_tab at h1
    rw [h1]
    decide
  · rw [if_neg hw]
    exact h

lemma step_trail_wbe (l : List Char) : ws_before_end (step_trail l) = false := by
  unfold step_trail
  by_cases h : ws_before_end l = true
  · rw [if_pos h]
    unfold ws_before_end
    rw [List.reverse_append, List.reverse_reverse]
    show (match ('\n' :: l.dropLast.reverse.dropWhile is_whitespace : List Char)
      with
      | _ :: b :: _ => is_whitespace b
      | _ => false) = false
    cases hD : l.dropLast.reverse.dropWhile is_whitespace with
    | nil => rfl
    | cons x d =>
      have hx := List.head?_dropWhile_not is_whitespace l.dropLast.reverse
      rw [hD] at hx
      simp only [List.head?_cons] at hx
      show is_whitespace x = false
      exact hx
  · rw [if_neg h]
    exact bool_not_true h

lemma fix_body_props (c : Config) (l : List Char) (hts : 1 ≤ c.tab_size) :
    ends_with_cr (fix_body c l) = false ∧
    (c.expand_tabs = true → contains_tab (fix_body c l) = false) ∧
    ws_before_end (fix_body c l) = false := by
  unfold fix_body
  refine ⟨?_, ?_, step_trail_wbe _⟩
  · exact step_trail_not_cr _
      (step_tabs_not_cr c _ hts (step_win_not_cr _ (step_mac_not_cr l)))
  · intro het
    exact step_trail_no_tab _ (step_tabs_no_tab c _ het)

lemma crlf_false_of_wbe_false (o : List Char) (h3 : ws_before_end o = false) :
    ends_with_crlf o = false := by
  cases hc : ends_with_crlf o with
  | false => rfl
  | true =>
    have := crlf_imp_wbe o hc
    rw [h3] at this
    exact Bool.noConfusion this

lemma tws_false_of_wbe_false (o : List Char) (h3 : ws_before_end o = false) :
    trailing_ws_check o = false := by
  cases hc : trailing_ws_check o with
  | false => rfl
  | true =>
    have := tws_imp_wbe o hc
    rw [h3] at this
    exact Bool.noConfusion this

lemma fixable_zero_of_props (c : Config) (o : List Char)
    (h1 : ends_with_cr o = false)
    (h2 : c.expand_tabs = true → contains_tab o = false)
    (h3 : ws_before_end o = false) :
    (check_line c o).fixable_errors = 0 := by
  have e1 : (c.expand_tabs && contains_tab o) = false := by
    cases het : c.expand_tabs with
    | false => rfl
    | true => rw [h2 het]; rfl
  unfold check_line
  simp only [e1, h1, crlf_false_of_wbe_false o h3, tws_false_of_wbe_false o h3]
  simp

lemma fix_body_id (c : Config) (l : List Char)
    (h1 : ends_with_cr l = false)
    (h2 : c.expand_tabs = true → contains_tab l = false)
    (h3 : ws_before_end l = false) :
    fix_body c l = l := by
  have hm1 : step_mac l = l := by
    unfold step_mac
    rw [if_neg (by rw [h1]; simp)]
  have hm2 : step_win l = l := by
    unfold step_win
    rw [if_neg (by rw [crlf_false_of_wbe_false l h3]; simp)]
  have hm3 : step_tabs c l = l := by
    unfold step_tabs
    refine if_neg ?_
    cases het : c.expand_tabs with
    | false => simp
    | true => rw [h2 het]; simp
  have hm4 : step_trail l = l := by
    unfold step_trail
    rw [if_neg (by rw [h3]; simp)]
  unfold fix_body
  rw [hm1, hm2, hm3, hm4]

lemma fix_modified_false_body (c : Config) (l : List Char)
    (hm : fix_modified c l = false) : fix_body c l = l := by
  simp only [fix_modified, Bool.or_eq_false_iff] at hm
  obtain ⟨⟨⟨hb1, hb2⟩, hb3⟩, hb5⟩ := hm
  have hm1 : step_mac l = l := by
    unfold step_mac
    rw [if_neg (by rw [hb1]; simp)]
  rw [hm1] at hb2
  have hm2 : step_win l = l := by
    unfold step_win
    rw [if_neg (by rw [hb2]; simp)]
  rw [hm1, hm2] at hb3
  have hm3 : step_tabs c l = l := by
    unfold step_tabs
    rw [if_neg (by rw [hb3]; simp)]
  rw [hm1, hm2, hm3] at hb5
  have hm4 : step_trail l = l := by
    unfold step_trail
    rw [if_neg (by rw [hb5]; simp)]
  unfold fix_body
  rw [hm1, hm2, hm3, hm4]

lemma fix_line_out_val (c : Config) (fn : String) (n : Nat) (l : List Char) :
    (fix_line c fn n l).out.val =
      if (check_line c l).fixable_errors = 0 ∧
          (check_line c l).unfixable_errors = 0
      then l else fix_body c l := by
  unfold fix_line
  by_cases h : (check_line c l).fixable_errors = 0 ∧
      (check_line c l).unfixable_errors = 0
  · rw [if_pos h, if_pos h]
    rfl
  · rw [if_neg h, if_neg h]
    show (if fix_modified c l then Cowstr.owned (fix_body c l)
      else Cowstr.borrowed l).val = fix_body c l
    by_cases hm : fix_modified c l = true
    · rw [if_pos hm]
      rfl
    · rw [if_neg hm]
      show l = fix_body c l
      exact (fix_modified_false_body c l (bool_not_true hm)).symm

/-- Claim C8: fixing is idempotent and produces fixable-compliant output —
for every Config with positive tab_size, re-checking the output of
`fix_line` yields zero fixable errors (unfixable ones may persist), and
re-running `fix_line` on that output returns it byte-identical. -/
theorem c8_fix_idempotent_compliant (c : Config) (fn1 : String) (n1 : Nat)
    (fn2 : String) (n2 : Nat) (l : List Char) (hts : 1 ≤ c.tab_size) :
    (check_line c ((fix_line c fn1 n1 l).out.val)).fixable_errors = 0 ∧
    (fix_line c fn2 n2 ((fix_line c fn1 n1 l).out.val)).out.val =
      (fix_line c fn1 n1 l).out.val := by
  rw [fix_line_out_val c fn1 n1 l]
  by_cases h : (check_line c l).fixable_errors = 0 ∧
      (check_line c l).unfixable_errors = 0
  · rw [if_pos h]
    refine ⟨h.1, ?_⟩
    rw [fix_line_out_val, if_pos h]
  · rw [if_neg h]
    obtain ⟨p1, p2, p3⟩ := fix_body_props c l hts
    have hfix0 : (check_line c (fix_body c l)).fixable_errors = 0 :=
      fixable_zero_of_props c _ p1 p2 p3
    refine ⟨hfix0, ?_⟩
    rw [fix_line_out_val]
    by_cases h2 : (check_line c (fix_body c l)).fixable_errors = 0 ∧
        (check_line c (fix_body c l)).unfixable_errors = 0
    · rw [if_pos h2]
    · rw [if_neg h2]
      exact fix_body_id c _ p1 p2 p3

/-- Witness for C8 at the line `"x \r\n"` under the default Config. -/
theorem c8_fix_idempotent_compliant_witness :
    1 ≤ DEFAULT_CONFIG.tab_size ∧
    ((check_line DEFAULT_CONFIG
        ((fix_line DEFAULT_CONFIG "f" 0 ("x \r\n".toList)).out.val)).fixable_errors
      = 0 ∧
    (fix_line DEFAULT_CONFIG "g" 1
        ((fix_line DEFAULT_CONFIG "f" 0 ("x \r\n".toList)).out.val)).out.val =
      (fix_line DEFAULT_CONFIG "f" 0 ("x \r\n".toList)).out.val) :=
  ⟨by decide,
    c8_fix_idempotent_compliant DEFAULT_CONFIG "f" 0 "g" 1 ("x \r\n".toList)
      (by decide)⟩
